import Mathlib

/-!
Verification development for the `py-pinger` concurrent host prober.

The Python source (`py-pinger.py`) shells out to the platform `ping`
utility once per target host, parses its textual output into a
`PingResult` (packet counters, RTT statistics, error string), and runs
many targets concurrently through a bounded thread pool that writes
results into a shared, insertion-ordered dictionary.

This file gives a shallow embedding of that program:

* Python string primitives (`split`, `strip`, `lstrip`, `startswith`,
  the `in` operator, negative-slice suffix removal, `int(...)` and
  `float(...)` conversion) are modelled structurally over `List Char`
  so that every definition evaluates by kernel reduction.  `float`
  parsing is modelled exactly, as a decimal mantissa/scale pair
  (`Dec`); `ping` prints short decimal literals, for which IEEE
  parsing followed by `int(...)` agrees with exact decimal truncation.
  Underscore digit separators, exponent forms and `inf`/`nan`, which
  never occur in `ping` output, are outside the model.
* Fallible Python code (list indexing, `int`/`float` conversion, which
  raise `IndexError`/`ValueError`) is embedded in `Except String`.
* The Python `dict` (insertion-ordered, unique keys) is an association
  list; `dict.fromkeys` and item assignment follow CPython semantics.
* Object identity is tracked where it matters: the run state `PState`
  holds a heap of allocated `PingResult` objects and the target
  dictionary maps each target to a heap address, so that the aliasing
  produced by `dict.fromkeys(target, PingResult())` (a single shared
  instance) is visible.
* Thread-pool nondeterminism is modelled by quantifying over the
  completion order in which the per-target captures write the shared
  dictionary; each dictionary write is atomic under the GIL.  A worker
  whose probe raises simply never performs its write (the source never
  consumes the `executor.map` iterator, so worker exceptions are
  discarded and do not stop the run); logging, the progress dots on
  stderr and wall-clock timestamps are side effects with no influence
  on the result data and are not modelled.
-/

/-! ## Python string primitives -/

/-- Splitting a list of characters at every occurrence of the
separator character, keeping empty segments, as Python
`str.split(sep)` does for a one-character separator.  The result is
never empty: splitting the empty string yields `[[]]`. -/
def splitOnCharList (c : Char) : List Char → List (List Char)
  | [] => [[]]
  | x :: xs =>
    match splitOnCharList c xs with
    | h :: t => if x == c then [] :: h :: t else (x :: h) :: t
    | [] => [[]]

/-- Python `s.split(sep)` for a one-character separator `sep`
(the source only ever splits on `"\n"`, `" "`, `"/"`). -/
def pySplit (s : String) (c : Char) : List String :=
  (splitOnCharList c s.data).map String.mk

/-- Whether `l` begins with `pat` (Python `str.startswith`, on
character lists). -/
def listBeginsWith : List Char → List Char → Bool
  | [], _ => true
  | _ :: _, [] => false
  | p :: ps, x :: xs => p == x && listBeginsWith ps xs

/-- Python `s.startswith(pre)`. -/
def pyStartsWith (s pre : String) : Bool :=
  listBeginsWith pre.data s.data

/-- Whether `sub` occurs contiguously in `l`. -/
def listContainsSub (sub : List Char) : List Char → Bool
  | [] => sub.isEmpty
  | x :: xs => listBeginsWith sub (x :: xs) || listContainsSub sub xs

/-- Python `sub in s` (substring containment; the source only tests
non-empty literals). -/
def pyIn (sub s : String) : Bool :=
  listContainsSub sub.data s.data

/-- Python `str.lstrip()` with no argument: drop leading whitespace. -/
def pyLstrip (s : String) : String :=
  String.mk (s.data.dropWhile Char.isWhitespace)

/-- Python `str.strip()` with no argument: drop leading and trailing
whitespace. -/
def pyStrip (s : String) : String :=
  String.mk (((s.data.dropWhile Char.isWhitespace).reverse.dropWhile
    Char.isWhitespace).reverse)

/-- Python `s[:-k]` for `k ≥ 1`: drop the last `k` characters, the
empty string when `len(s) ≤ k`. -/
def pySliceToNeg (s : String) (k : Nat) : String :=
  String.mk (s.data.take (s.data.length - k))

/-- Python `len(s)`. -/
def pyLen (s : String) : Nat := s.data.length

/-- Numeric value of a list of decimal digit characters. -/
def digitsVal (ds : List Char) : Nat :=
  ds.foldl (fun n c => 10 * n + (c.toNat - 48)) 0

/-- Helper splitting an optional leading `+`/`-` sign from a numeric
literal, as Python `int(...)`/`float(...)` accept. -/
def splitSign : List Char → Int × List Char
  | '-' :: rest => (-1, rest)
  | '+' :: rest => (1, rest)
  | t => (1, t)

/-- Python `int(s)` on a string: strip whitespace, optional sign, then
a non-empty run of decimal digits; anything else raises `ValueError`. -/
def pyInt (s : String) : Except String Int :=
  let t := (pyStrip s).data
  let sd := splitSign t
  if !sd.2.isEmpty && sd.2.all Char.isDigit then
    .ok (sd.1 * (digitsVal sd.2 : Int))
  else
    .error ("ValueError: invalid literal for int() with base 10: " ++ s)

/-- Exact value of a decimal literal: the rational
`mant / 10 ^ scale`.  This is the value `float(s)` denotes for the
short decimal literals `ping` prints. -/
structure Dec where
  mant : Int
  scale : Nat
deriving Repr, DecidableEq

/-- Ordering on decimal values: `a ≤ b` iff
`a.mant / 10^a.scale ≤ b.mant / 10^b.scale`, by cross-multiplication. -/
def Dec.Le (a b : Dec) : Prop :=
  a.mant * (10 : Int) ^ b.scale ≤ b.mant * (10 : Int) ^ a.scale

instance (a b : Dec) : Decidable (Dec.Le a b) := by
  unfold Dec.Le
  infer_instance

/-- Python `float(s)` for plain decimal literals: strip whitespace,
optional sign, digits with at most one decimal point and at least one
digit; anything else raises `ValueError`. -/
def pyFloat (s : String) : Except String Dec :=
  let t := (pyStrip s).data
  let sd := splitSign t
  match splitOnCharList '.' sd.2 with
  | [ip] =>
    if !ip.isEmpty && ip.all Char.isDigit then
      .ok ⟨sd.1 * (digitsVal ip : Int), 0⟩
    else .error ("ValueError: could not convert string to float: " ++ s)
  | [ip, fp] =>
    if (!ip.isEmpty || !fp.isEmpty) && ip.all Char.isDigit && fp.all Char.isDigit then
      .ok ⟨sd.1 * ((digitsVal ip : Int) * (10 : Int) ^ fp.length + (digitsVal fp : Int)),
           fp.length⟩
    else .error ("ValueError: could not convert string to float: " ++ s)
  | _ => .error ("ValueError: could not convert string to float: " ++ s)

/-- Python `int(x)` on a float value: truncation toward zero of the
exact decimal value. -/
def pyTruncDec (d : Dec) : Int :=
  if 0 ≤ d.mant then ((d.mant.toNat / 10 ^ d.scale : Nat) : Int)
  else -(((-d.mant).toNat / 10 ^ d.scale : Nat) : Int)

/-- Python list indexing `l[i]` for a non-negative index: out of range
raises `IndexError`. -/
def pyIndex (l : List α) (i : Nat) : Except String α :=
  match l[i]? with
  | some x => .ok x
  | none => .error "IndexError: list index out of range"

/-! ## Data model: `DEFAULTS` and `PingResult` -/

namespace DEFAULTS

def MAX_THREADS : Nat := 50

def NUM_REQUESTS : Int := 4

def REQUEST_TIMEOUT_LINUX : Int := 2

def REQUEST_TIMEOUT_WINDOWS : Int := 2000

end DEFAULTS

/-- Per-target result record.  `packets` holds `[Sent, Received,
Lost]` and `rtt` holds `[Min, Max, Avg]`, exactly as the source
dataclass stores them in three-element lists; `__post_init__`
zero-initializes both lists. -/
structure PingResult where
  packets : List Int
  rtt : List Int
  error : String
deriving Repr, DecidableEq

/-- The freshly constructed `PingResult()`: both lists zeroed, empty
error string. -/
def PingResult.init : PingResult :=
  { packets := [0, 0, 0], rtt := [0, 0, 0], error := "" }

/-! ## Parsing the `ping` output (`Pinger._ping_it`) -/

/-- Windows branch of the RTT line:
`rtt_line = token.strip().split(' ')` followed by
`[ int(rtt_line[2][:-3]), int(rtt_line[5][:-3]), int(rtt_line[8][:-2]) ]`,
producing `[Minimum, Maximum, Average]`. -/
def winRttParse (token : String) : Except String (Int × Int × Int) := do
  let rtt_line := pySplit (pyStrip token) ' '
  let m ← pyInt (pySliceToNeg (← pyIndex rtt_line 2) 3)
  let mx ← pyInt (pySliceToNeg (← pyIndex rtt_line 5) 3)
  let av ← pyInt (pySliceToNeg (← pyIndex rtt_line 8) 2)
  return (m, mx, av)

/-- Windows branch of the packets line:
`packet_line = token.strip().split(' ')` followed by
`[ int(packet_line[3][:-1]), int(packet_line[6][:-1]), int(packet_line[9]) ]`,
producing `[Sent, Received, Lost]`. -/
def winPacketsParse (token : String) : Except String (Int × Int × Int) := do
  let packet_line := pySplit (pyStrip token) ' '
  let sent ← pyInt (pySliceToNeg (← pyIndex packet_line 3) 1)
  let recv ← pyInt (pySliceToNeg (← pyIndex packet_line 6) 1)
  let lost ← pyInt (← pyIndex packet_line 9)
  return (sent, recv, lost)

/-- POSIX branch of the RTT line:
`rtt_values = token.split(' ')[3].split('/')` holds
`min/avg/max/mdev`; the source converts entries `0`, `2`, `1` in that
order with `int(float(...))`.  The triple returned here is the exact
decimal values `(min, avg, max)` before truncation. -/
def posixRttParse (token : String) : Except String (Dec × Dec × Dec) := do
  let s3 ← pyIndex (pySplit token ' ') 3
  let rtt_values := pySplit s3 '/'
  let q0 ← pyFloat (← pyIndex rtt_values 0)
  let q2 ← pyFloat (← pyIndex rtt_values 2)
  let q1 ← pyFloat (← pyIndex rtt_values 1)
  return (q0, q1, q2)

/-- POSIX branch of the packets line: `packet_line = token.split(' ')`
followed by
`[ int(packet_line[0]), int(packet_line[3]), int(packet_line[5][:-1]) ]`.
On a line `N packets transmitted, R received, P% packet loss, ...`
this yields `(N, R, P)` — the third value is the loss percentage with
its `%` sign sliced off, not a lost-packet count. -/
def posixPacketsParse (token : String) : Except String (Int × Int × Int) := do
  let packet_line := pySplit token ' '
  let a ← pyInt (← pyIndex packet_line 0)
  let b ← pyInt (← pyIndex packet_line 3)
  let c ← pyInt (pySliceToNeg (← pyIndex packet_line 5) 1)
  return (a, b, c)

/-- One iteration of the `for line in lines` loop of
`Pinger._ping_it`: `token = line.lstrip()`, then the platform branch
matches the RTT summary line or the packet summary line and overwrites
the corresponding field of the accumulating result.  Conversion and
indexing errors propagate as the exceptions the source would raise. -/
def processLine (win : Bool) (r : PingResult) (line : String) :
    Except String PingResult :=
  let token := pyLstrip line
  if win then
    if pyStartsWith token "Minimum" then
      match winRttParse token with
      | .ok (m, mx, av) => .ok { r with rtt := [m, mx, av] }
      | .error e => .error e
    else if pyStartsWith token "Packets:" then
      match winPacketsParse token with
      | .ok (sent, recv, lost) => .ok { r with packets := [sent, recv, lost] }
      | .error e => .error e
    else .ok r
  else
    if pyIn "rtt min" token then
      match posixRttParse token with
      | .ok (q0, q1, q2) =>
        .ok { r with rtt := [pyTruncDec q0, pyTruncDec q2, pyTruncDec q1] }
      | .error e => .error e
    else if pyIn "packets transmitted," token then
      match posixPacketsParse token with
      | .ok (a, b, c) => .ok { r with packets := [a, b, c] }
      | .error e => .error e
    else .ok r

/-- Error string the failure branch of `_ping_it` stores: stripped
stderr when stderr is non-empty (even if stripping leaves it empty),
otherwise the return code in parentheses, with an `offline?` hint for
code 1. -/
def failure_error (p_rc : Int) (p_stderr : String) : String :=
  if pyLen p_stderr > 0 then pyStrip p_stderr
  else
    if p_rc = 1 then "(" ++ toString p_rc ++ ")" ++ " offline?"
    else "(" ++ toString p_rc ++ ")"

/-- `Pinger._ping_it`, as a function of the spawned process outcome
(return code, decoded stdout, decoded stderr).  On a non-zero return
code the fresh zero-initialized result only gets its `error` field
set: stripped stderr when stderr is non-empty, otherwise `"(rc)"`
with `" offline?"` appended when the code is 1.  On return code zero
the stdout is split into lines and each line folded through
`processLine`; a `ValueError`/`IndexError` raised while parsing a
matched summary line escapes `_ping_it`, which the embedding returns
as `.error`. -/
def ping_it (win : Bool) (p_rc : Int) (p_stdout p_stderr : String) :
    Except String PingResult :=
  if p_rc ≠ 0 then
    .ok { PingResult.init with error := failure_error p_rc p_stderr }
  else
    (pySplit p_stdout '\n').foldlM (processLine win) PingResult.init

/-- The command string `Pinger._ping_cmd` builds: the request count
and timeout configuration only ever reach the external `ping` process
through these flags; nothing feeds them back into result parsing. -/
def ping_cmd (win : Bool) (num_requests request_timeout : Int) : String :=
  if win then
    "ping -n " ++ toString num_requests ++ " -w " ++ toString request_timeout
  else
    "ping -c " ++ toString num_requests ++ " -W " ++ toString request_timeout

/-! ## The Python dict and the run state (`Pinger`) -/

/-- Python `dict` item assignment `d[k] = v` on an insertion-ordered
association list: overwrite in place when the key is present
(keeping its position), otherwise append at the end. -/
def pyDictSet : List (String × α) → String → α → List (String × α)
  | [], k, v => [(k, v)]
  | p :: rest, k, v =>
    if p.1 == k then (k, v) :: rest else p :: pyDictSet rest k v

/-- Python `d[k]` lookup (as an `Option`). -/
def pyGet (d : List (String × α)) (k : String) : Option α :=
  (d.find? (fun p => p.1 == k)).map (fun p => p.2)

/-- Python `d.keys()` in insertion order. -/
def pyKeys (d : List (String × α)) : List String :=
  d.map (fun p => p.1)

/-- Python `dict.fromkeys(ks, v)`: insert the keys left to right, all
mapped to the one value `v`; a repeated key keeps its first position. -/
def pyFromkeys (ks : List String) (v : α) : List (String × α) :=
  ks.foldl (fun d k => pyDictSet d k v) []

/-- The distinct keys of `ks` in order of first occurrence — the key
sequence a Python dict built from `ks` ends up with. -/
def pyDedup (ks : List String) : List String :=
  pyKeys (pyFromkeys ks (0 : Nat))

/-- Outcome of one spawned `ping` subprocess: return code, decoded
stdout, decoded stderr. -/
structure ProcOutcome where
  rc : Int
  stdout : String
  stderr : String

/-- State of a `Pinger` object.  `heap` is the list of `PingResult`
objects allocated so far (a heap address is an index into it) and
`target_dict` maps each target to the address of its current result
object, so aliasing between dict entries is observable.  Wall-clock
timestamps are carried as opaque optional values. -/
structure PState where
  source_host : String
  heap : List PingResult
  target_dict : List (String × Nat)
  num_requests : Int
  request_timeout : Int
  start_time : Option Int
  end_time : Option Int
deriving Repr, DecidableEq

/-- Argument of `Pinger.__init__`: `Union[str, List]`. -/
inductive TargetArg where
  | str (s : String)
  | list (l : List String)

/-- `Pinger.__init__`: a lone string target is wrapped into a
one-element list, then `self._target_dict = dict.fromkeys(target,
PingResult())` evaluates `PingResult()` once — allocating a single
result object (address 0) shared by every entry — and the defaults
are installed (`socket.gethostname()` is the `host` parameter,
`is_windows()` the `win` parameter). -/
def pinger_init (win : Bool) (host : String) (target : TargetArg) : PState :=
  let tlist := match target with
    | .str s => [s]
    | .list l => l
  { source_host := host
    heap := [PingResult.init]
    target_dict := pyFromkeys tlist 0
    num_requests := DEFAULTS.NUM_REQUESTS
    request_timeout :=
      if win then DEFAULTS.REQUEST_TIMEOUT_WINDOWS else DEFAULTS.REQUEST_TIMEOUT_LINUX
    start_time := none
    end_time := none }

/-- Setter of the `num_requests` property: out-of-range counts fall
back to the default, in-range counts are stored unchanged. -/
def set_num_requests (s : PState) (count : Int) : PState :=
  if count < 1 || count > 100 then
    { s with num_requests := DEFAULTS.NUM_REQUESTS }
  else
    { s with num_requests := count }

/-- Setter of the `request_timeout` property: a negative value falls
back to the platform default, any other value is stored unchanged. -/
def set_request_timeout (win : Bool) (s : PState) (value : Int) : PState :=
  if value < 0 then
    { s with request_timeout :=
        if win then DEFAULTS.REQUEST_TIMEOUT_WINDOWS else DEFAULTS.REQUEST_TIMEOUT_LINUX }
  else
    { s with request_timeout := value }

/-- Worker-pool size `min(DEFAULTS.MAX_THREADS, len(self._target_dict))`. -/
def num_workers (s : PState) : Nat :=
  min DEFAULTS.MAX_THREADS s.target_dict.length

/-- `Pinger._capture_target` for one target: run `_ping_it` on that
target's process outcome and assign the freshly returned result object
into the shared dict.  When `_ping_it` raises, the assignment never
executes (and the exception is swallowed by the unconsumed
`executor.map` iterator), so the state is unchanged. -/
def capture_target (win : Bool) (env : String → ProcOutcome) (s : PState)
    (t : String) : PState :=
  match ping_it win (env t).rc (env t).stdout (env t).stderr with
  | .ok r =>
    { s with
      heap := s.heap ++ [r]
      target_dict := pyDictSet s.target_dict t s.heap.length }
  | .error _ => s

/-- `Pinger.ping_targets`: the thread pool maps `_capture_target` over
the dict keys; under the GIL each dict write is atomic, so a run is a
fold of `capture_target` over some completion order of the keys
(`order` ranges over all permutations of the key list). -/
def ping_targets (win : Bool) (env : String → ProcOutcome) (s : PState)
    (order : List String) : PState :=
  order.foldl (capture_target win env) s

/-- Result object a completed worker stores for target `t`, given the
process outcome; when `_ping_it` raises there is no such object. -/
def resultOf (win : Bool) (env : String → ProcOutcome) (t : String) :
    Except String PingResult :=
  ping_it win (env t).rc (env t).stdout (env t).stderr

/-- Dereferenced view of one entry of the result dict: the
`PingResult` object target `t` currently maps to. -/
def getResult (s : PState) (t : String) : Option PingResult :=
  (pyGet s.target_dict t).bind (fun a => s.heap[a]?)

/-- The ordered `(target, result object)` view that `pinger.results`
/ `to_dict` expose and `output_text` / `output_csv` iterate. -/
def result_items (s : PState) : List (String × Option PingResult) :=
  s.target_dict.map (fun p => (p.1, s.heap[p.2]?))

/-! ## Boolean facts about one stdout, used as claim hypotheses -/

/-- Whether `_ping_it` would try to parse this line at all: the lstripped
token matches one of the two summary-line patterns of the platform. -/
def lineMatches (win : Bool) (line : String) : Bool :=
  let token := pyLstrip line
  if win then
    pyStartsWith token "Minimum" || pyStartsWith token "Packets:"
  else
    pyIn "rtt min" token || pyIn "packets transmitted," token

/-- Whether no line of this stdout matches a summary pattern. -/
def noLineMatches (win : Bool) (out : String) : Bool :=
  (pySplit out '\n').all (fun l => !(lineMatches win l))

/-- Whether every RTT summary line of this stdout reports ordered,
non-negative times `0 ≤ min ≤ avg ≤ max` (lines that do not parse are
exempt: on those `_ping_it` raises instead of storing values). -/
def rttOrderedLine (win : Bool) (line : String) : Bool :=
  let token := pyLstrip line
  if win then
    if pyStartsWith token "Minimum" then
      match winRttParse token with
      | .ok (m, mx, av) => decide (0 ≤ m ∧ m ≤ av ∧ av ≤ mx)
      | .error _ => true
    else true
  else
    if pyIn "rtt min" token then
      match posixRttParse token with
      | .ok (q0, q1, q2) =>
        decide (0 ≤ q0.mant) && decide (Dec.Le q0 q1) && decide (Dec.Le q1 q2)
      | .error _ => true
    else true

/-- Whether every RTT summary line of the whole stdout is ordered. -/
def rttOrderedOut (win : Bool) (out : String) : Bool :=
  (pySplit out '\n').all (rttOrderedLine win)

/-- Whether every packet summary line of this stdout reports values
whose first field equals the sum of the other two.  On Windows the
three fields are Sent/Received/Lost, so genuine `ping` output always
satisfies this; on POSIX the third parsed field is the loss
percentage, so it holds exactly when the percentage coincides with the
lost count (for example at zero loss). -/
def packetsSumLine (win : Bool) (line : String) : Bool :=
  let token := pyLstrip line
  if win then
    if pyStartsWith token "Minimum" then true
    else if pyStartsWith token "Packets:" then
      match winPacketsParse token with
      | .ok (a, b, c) => a == b + c
      | .error _ => true
    else true
  else
    if pyIn "rtt min" token then true
    else if pyIn "packets transmitted," token then
      match posixPacketsParse token with
      | .ok (a, b, c) => a == b + c
      | .error _ => true
    else true

/-- Whether every packet summary line of the whole stdout sums. -/
def packetsSumOut (win : Bool) (out : String) : Bool :=
  (pySplit out '\n').all (packetsSumLine win)

/-- Whether an `Except` computation returned normally (the Python call
did not raise). -/
def exceptOk : Except ε α → Bool
  | .ok _ => true
  | .error _ => false

/-- Ordered-RTT property of a result record: with `rtt = [Min, Max,
Avg]`, the minimum is non-negative and `Min ≤ Avg ≤ Max`. -/
def RttOrd (r : PingResult) : Prop :=
  0 ≤ r.rtt.getD 0 0 ∧ r.rtt.getD 0 0 ≤ r.rtt.getD 2 0 ∧
    r.rtt.getD 2 0 ≤ r.rtt.getD 1 0

/-- Packet-sum property of a result record: with `packets = [Sent,
Received, Lost]`, `Sent = Received + Lost`. -/
def PacketsSum (r : PingResult) : Prop :=
  r.packets.getD 0 0 = r.packets.getD 1 0 + r.packets.getD 2 0

/-! ## Concrete fixtures used in counterexamples and witnesses -/

/-- Fifty distinct host names followed by a repeat of the first one: a
target list of length 51 whose dict collapses to 50 keys. -/
def targets_dup : List String :=
  ((List.range 50).map (fun i => String.mk ('h' :: List.replicate i 'a'))) ++ ["h"]

/-- Process environment in which every `ping` exits with code 1 and a
diagnostic on stderr. -/
def env_all_fail : String → ProcOutcome :=
  fun _ => ⟨1, "", "ping: connect: Network is unreachable"⟩

/-- Process environment in which every `ping` exits 0 printing
nothing. -/
def env_all_quiet : String → ProcOutcome :=
  fun _ => ⟨0, "", ""⟩

/-- A realistic POSIX `ping` transcript: four requests, all answered. -/
def sample_posix_stdout : String :=
  "PING host (10.0.0.1) 56(84) bytes of data.\n64 bytes from 10.0.0.1: icmp_seq=1 ttl=64 time=14.9 ms\n\n--- host ping statistics ---\n4 packets transmitted, 4 received, 0% packet loss, time 3004ms\nrtt min/avg/max/mdev = 14.521/15.113/15.705/0.592 ms\n"

/-- Process environment replaying `sample_posix_stdout` for every
target. -/
def env_posix_ok : String → ProcOutcome :=
  fun _ => ⟨0, sample_posix_stdout, ""⟩

/-! ## Arithmetic lemmas about decimal truncation -/

theorem nat_div_le_div (A B s t : Nat) (hs : 0 < s) (ht : 0 < t)
    (h : A * t ≤ B * s) : A / s ≤ B / t := by
  rw [Nat.le_div_iff_mul_le ht]
  have h1 : A / s * t * s ≤ A * t := by
    have hbase : A / s * s ≤ A := Nat.div_mul_le_self A s
    calc A / s * t * s = A / s * s * t := by ring
    _ ≤ A * t := Nat.mul_le_mul_right t hbase
  exact Nat.le_of_mul_le_mul_right (le_trans h1 h) hs

theorem Dec.mant_nonneg_of_le {a b : Dec} (ha : 0 ≤ a.mant) (h : Dec.Le a b) :
    0 ≤ b.mant := by
  unfold Dec.Le at h
  have hpa : (0 : Int) < 10 ^ a.scale := pow_pos (by norm_num) a.scale
  have hpb : (0 : Int) < 10 ^ b.scale := pow_pos (by norm_num) b.scale
  nlinarith

theorem pyTruncDec_nonneg {d : Dec} (h : 0 ≤ d.mant) : 0 ≤ pyTruncDec d := by
  unfold pyTruncDec
  rw [if_pos h]
  exact Int.ofNat_nonneg _

theorem pyTruncDec_mono {a b : Dec} (ha : 0 ≤ a.mant) (h : Dec.Le a b) :
    pyTruncDec a ≤ pyTruncDec b := by
  have hb : 0 ≤ b.mant := Dec.mant_nonneg_of_le ha h
  unfold pyTruncDec
  rw [if_pos ha, if_pos hb]
  have hs : 0 < 10 ^ a.scale := Nat.pos_pow_of_pos a.scale (by norm_num)
  have ht : 0 < 10 ^ b.scale := Nat.pos_pow_of_pos b.scale (by norm_num)
  have hnat : a.mant.toNat * 10 ^ b.scale ≤ b.mant.toNat * 10 ^ a.scale := by
    unfold Dec.Le at h
    have hcast : ((a.mant.toNat * 10 ^ b.scale : Nat) : Int)
        ≤ ((b.mant.toNat * 10 ^ a.scale : Nat) : Int) := by
      push_cast
      rw [Int.toNat_of_nonneg ha, Int.toNat_of_nonneg hb]
      exact h
    exact_mod_cast hcast
  exact_mod_cast nat_div_le_div _ _ _ _ hs ht hnat

/-! ## Lemmas about the Python dict model -/

theorem pyGet_set_self (d : List (String × α)) (k : String) (v : α) :
    pyGet (pyDictSet d k v) k = some v := by
  induction d with
  | nil => simp [pyDictSet, pyGet, List.find?]
  | cons p rest ih =>
    by_cases hpk : p.1 = k
    · simp [pyDictSet, hpk, pyGet, List.find?]
    · have hbeq : (p.1 == k) = false := beq_eq_false_iff_ne.mpr hpk
      simp only [pyDictSet, hbeq, if_neg Bool.false_ne_true]
      simpa [pyGet, List.find?, hbeq] using ih

theorem pyGet_set_ne (d : List (String × α)) (k k' : String) (v : α)
    (h : k' ≠ k) : pyGet (pyDictSet d k v) k' = pyGet d k' := by
  induction d with
  | nil =>
    have : (k == k') = false := beq_eq_false_iff_ne.mpr (fun hh => h hh.symm)
    simp [pyDictSet, pyGet, List.find?, this]
  | cons p rest ih =>
    by_cases hpk : p.1 = k
    · have hbeq : (p.1 == k) = true := beq_iff_eq.mpr hpk
      have hkk : (k == k') = false := beq_eq_false_iff_ne.mpr (fun hh => h hh.symm)
      have hpk' : (p.1 == k') = false := by
        subst hpk
        exact hkk
      simp [pyDictSet, hbeq, pyGet, List.find?, hkk, hpk']
    · have hbeq : (p.1 == k) = false := beq_eq_false_iff_ne.mpr hpk
      by_cases hp' : p.1 = k'
      · have hbeq' : (p.1 == k') = true := beq_iff_eq.mpr hp'
        simp [pyDictSet, hbeq, pyGet, List.find?, hbeq']
      · have hbeq' : (p.1 == k') = false := beq_eq_false_iff_ne.mpr hp'
        simp only [pyDictSet, hbeq, if_neg Bool.false_ne_true]
        simpa [pyGet, List.find?, hbeq'] using ih

theorem pyKeys_set (d : List (String × α)) (k : String) (v : α) :
    pyKeys (pyDictSet d k v) =
      if k ∈ pyKeys d then pyKeys d else pyKeys d ++ [k] := by
  induction d with
  | nil => simp [pyDictSet, pyKeys]
  | cons p rest ih =>
    by_cases hpk : p.1 = k
    · have hbeq : (p.1 == k) = true := beq_iff_eq.mpr hpk
      simp [pyDictSet, hbeq, pyKeys, hpk]
    · have hbeq : (p.1 == k) = false := beq_eq_false_iff_ne.mpr hpk
      have hne : k ≠ p.1 := fun hh => hpk hh.symm
      simp only [pyDictSet, hbeq, if_neg Bool.false_ne_true, pyKeys,
        List.map_cons] at ih ⊢
      rw [ih]
      by_cases hmem : k ∈ List.map (fun p => p.1) rest
      · rw [if_pos hmem, if_pos (List.mem_cons_of_mem _ hmem)]
      · rw [if_neg hmem, if_neg (by simp [List.mem_cons, hne, hmem]),
          List.cons_append]

theorem pyKeys_set_mem (d : List (String × α)) (k : String) (v : α)
    (h : k ∈ pyKeys d) : pyKeys (pyDictSet d k v) = pyKeys d := by
  rw [pyKeys_set, if_pos h]

theorem pyGet_isSome_of_mem (d : List (String × α)) (k : String)
    (h : k ∈ pyKeys d) : ∃ v, pyGet d k = some v := by
  induction d with
  | nil => simp [pyKeys] at h
  | cons p rest ih =>
    by_cases hpk : p.1 = k
    · have hbeq : (p.1 == k) = true := beq_iff_eq.mpr hpk
      exact ⟨p.2, by simp [pyGet, List.find?, hbeq]⟩
    · have hbeq : (p.1 == k) = false := beq_eq_false_iff_ne.mpr hpk
      have hmem : k ∈ pyKeys rest := by
        simp [pyKeys] at h ⊢
        rcases h with h | h
        · exact absurd h.symm hpk
        · exact h
      rcases ih hmem with ⟨v, hv⟩
      exact ⟨v, by simpa [pyGet, List.find?, hbeq] using hv⟩

theorem mem_pyDictSet (d : List (String × α)) (k : String) (v : α)
    (p : String × α) (h : p ∈ pyDictSet d k v) : p ∈ d ∨ p = (k, v) := by
  induction d with
  | nil => simp [pyDictSet] at h; simp [h]
  | cons q rest ih =>
    by_cases hqk : q.1 = k
    · have hbeq : (q.1 == k) = true := beq_iff_eq.mpr hqk
      simp [pyDictSet, hbeq] at h
      rcases h with h | h
      · exact Or.inr (by simp [h])
      · exact Or.inl (List.mem_cons_of_mem _ h)
    · have hbeq : (q.1 == k) = false := beq_eq_false_iff_ne.mpr hqk
      simp only [pyDictSet, hbeq, if_neg Bool.false_ne_true] at h
      rcases List.mem_cons.mp h with h | h
      · exact Or.inl (by simp [h])
      · rcases ih h with h | h
        · exact Or.inl (List.mem_cons_of_mem _ h)
        · exact Or.inr h

theorem pyKeys_foldl_set_fresh (v : α) (ks : List String) :
    ∀ d : List (String × α), ks.Nodup → (∀ k ∈ ks, k ∉ pyKeys d) →
      pyKeys (ks.foldl (fun d k => pyDictSet d k v) d) = pyKeys d ++ ks := by
  induction ks with
  | nil => intro d _ _; simp
  | cons k rest ih =>
    intro d hnd hfresh
    rw [List.foldl_cons]
    have hk : k ∉ pyKeys d := hfresh k (by simp)
    have hkeys : pyKeys (pyDictSet d k v) = pyKeys d ++ [k] := by
      rw [pyKeys_set, if_neg hk]
    have hnd' : rest.Nodup := (List.nodup_cons.mp hnd).2
    have hknr : k ∉ rest := (List.nodup_cons.mp hnd).1
    rw [ih (pyDictSet d k v) hnd' ?fresh]
    · rw [hkeys, List.append_assoc, List.singleton_append]
    case fresh =>
      intro k' hk'
      rw [hkeys]
      simp only [List.mem_append, List.mem_singleton]
      rintro (h | h)
      · exact hfresh k' (by simp [hk']) h
      · exact hknr (h ▸ hk')

theorem pyKeys_fromkeys_nodup (ks : List String) (v : α) (h : ks.Nodup) :
    pyKeys (pyFromkeys ks v) = ks := by
  unfold pyFromkeys
  have hres := pyKeys_foldl_set_fresh v ks [] h (by simp [pyKeys])
  simpa [pyKeys] using hres

theorem pyKeys_foldl_set_congr (ks : List String) :
    ∀ (d₁ : List (String × α)) (d₂ : List (String × β)) (v₁ : α) (v₂ : β),
      pyKeys d₁ = pyKeys d₂ →
      pyKeys (ks.foldl (fun d k => pyDictSet d k v₁) d₁)
        = pyKeys (ks.foldl (fun d k => pyDictSet d k v₂) d₂) := by
  induction ks with
  | nil => intro _ _ _ _ h; simpa using h
  | cons k rest ih =>
    intro d₁ d₂ v₁ v₂ h
    rw [List.foldl_cons, List.foldl_cons]
    exact ih _ _ _ _ (by rw [pyKeys_set, pyKeys_set, h])

theorem pyKeys_fromkeys_eq_dedup (ks : List String) (v : α) :
    pyKeys (pyFromkeys ks v) = pyDedup ks := by
  unfold pyDedup pyFromkeys
  exact pyKeys_foldl_set_congr ks [] [] v 0 rfl

theorem pyKeys_foldl_set_sublist (v : α) (ks : List String) :
    ∀ d : List (String × α), ∃ ex,
      pyKeys (ks.foldl (fun d k => pyDictSet d k v) d) = pyKeys d ++ ex ∧
      ex.Sublist ks := by
  induction ks with
  | nil => intro d; exact ⟨[], by simp, List.nil_sublist _⟩
  | cons k rest ih =>
    intro d
    rw [List.foldl_cons]
    rcases ih (pyDictSet d k v) with ⟨ex, hex, hsub⟩
    by_cases hk : k ∈ pyKeys d
    · refine ⟨ex, ?e1, List.Sublist.cons k hsub⟩
      rw [hex, pyKeys_set, if_pos hk]
    · refine ⟨k :: ex, ?e2, List.Sublist.cons₂ k hsub⟩
      rw [hex, pyKeys_set, if_neg hk, List.append_assoc, List.singleton_append]

theorem pyDedup_sublist (ks : List String) : (pyDedup ks).Sublist ks := by
  rcases pyKeys_foldl_set_sublist (0 : Nat) ks [] with ⟨ex, hex, hsub⟩
  have h2 : pyDedup ks = ex := by
    unfold pyDedup pyFromkeys
    simpa [pyKeys] using hex
  rw [h2]
  exact hsub

theorem snd_eq_foldl_fromkeys (v : α) (ks : List String) :
    ∀ d : List (String × α), (∀ p ∈ d, p.2 = v) →
      ∀ p ∈ ks.foldl (fun d k => pyDictSet d k v) d, p.2 = v := by
  induction ks with
  | nil => intro d h; simpa using h
  | cons k rest ih =>
    intro d h
    rw [List.foldl_cons]
    refine ih _ ?h
    intro p hp
    rcases mem_pyDictSet d k v p hp with h1 | h1
    · exact h p h1
    · rw [h1]

theorem pyGet_fromkeys (ks : List String) (v : α) (k : String)
    (h : k ∈ pyKeys (pyFromkeys ks v)) : pyGet (pyFromkeys ks v) k = some v := by
  rcases pyGet_isSome_of_mem _ _ h with ⟨w, hw⟩
  have hfind := hw
  unfold pyGet at hfind
  rcases Option.map_eq_some'.mp hfind with ⟨p, hp, hpw⟩
  have hmem : p ∈ pyFromkeys ks v := List.mem_of_find?_eq_some hp
  have hval : p.2 = v := by
    refine snd_eq_foldl_fromkeys v ks [] ?base p ?hm
    · intro q hq; simp at hq
    · simpa [pyFromkeys] using hmem
  rw [hw, ← hpw, hval]

/-! ## Lemmas about one capture step and the whole run -/

theorem capture_heap_len_le (win : Bool) (env : String → ProcOutcome)
    (s : PState) (t : String) :
    s.heap.length ≤ (capture_target win env s t).heap.length := by
  unfold capture_target
  cases h : ping_it win (env t).rc (env t).stdout (env t).stderr with
  | ok r => simp
  | error e => simp

theorem capture_heap_get (win : Bool) (env : String → ProcOutcome)
    (s : PState) (t : String) (a : Nat) (ha : a < s.heap.length) :
    (capture_target win env s t).heap[a]? = s.heap[a]? := by
  unfold capture_target
  cases h : ping_it win (env t).rc (env t).stdout (env t).stderr with
  | ok r => simp [List.getElem?_append_left ha]
  | error e => rfl

theorem capture_keys (win : Bool) (env : String → ProcOutcome)
    (s : PState) (t : String) (h : t ∈ pyKeys s.target_dict) :
    pyKeys (capture_target win env s t).target_dict = pyKeys s.target_dict := by
  unfold capture_target
  cases hres : ping_it win (env t).rc (env t).stdout (env t).stderr with
  | ok r => simp [pyKeys_set_mem _ _ _ h]
  | error e => rfl

theorem capture_get_ne (win : Bool) (env : String → ProcOutcome)
    (s : PState) (t t' : String) (h : t' ≠ t) :
    pyGet (capture_target win env s t).target_dict t'
      = pyGet s.target_dict t' := by
  unfold capture_target
  cases hres : ping_it win (env t).rc (env t).stdout (env t).stderr with
  | ok r => simp [pyGet_set_ne _ _ _ _ h]
  | error e => rfl

theorem run_heap_len_le (win : Bool) (env : String → ProcOutcome)
    (order : List String) : ∀ s : PState,
    s.heap.length ≤ (ping_targets win env s order).heap.length := by
  induction order with
  | nil => intro s; exact le_refl _
  | cons t rest ih =>
    intro s
    unfold ping_targets at ih ⊢
    rw [List.foldl_cons]
    exact le_trans (capture_heap_len_le win env s t) (ih _)

theorem run_heap_get (win : Bool) (env : String → ProcOutcome)
    (order : List String) : ∀ (s : PState) (a : Nat), a < s.heap.length →
    (ping_targets win env s order).heap[a]? = s.heap[a]? := by
  induction order with
  | nil => intro s a _; rfl
  | cons t rest ih =>
    intro s a ha
    unfold ping_targets at ih ⊢
    rw [List.foldl_cons]
    have ha' : a < (capture_target win env s t).heap.length :=
      lt_of_lt_of_le ha (capture_heap_len_le win env s t)
    rw [ih _ a ha']
    exact capture_heap_get win env s t a ha

theorem run_keys (win : Bool) (env : String → ProcOutcome)
    (order : List String) : ∀ s : PState,
    (∀ t ∈ order, t ∈ pyKeys s.target_dict) →
    pyKeys (ping_targets win env s order).target_dict
      = pyKeys s.target_dict := by
  induction order with
  | nil => intro s _; rfl
  | cons t rest ih =>
    intro s hmem
    unfold ping_targets at ih ⊢
    rw [List.foldl_cons]
    have hkt : t ∈ pyKeys s.target_dict := hmem t (by simp)
    have hstep := capture_keys win env s t hkt
    rw [ih _ ?mems, hstep]
    case mems =>
      intro t' ht'
      rw [hstep]
      exact hmem t' (List.mem_cons_of_mem _ ht')

theorem run_get_not_mem (win : Bool) (env : String → ProcOutcome)
    (order : List String) : ∀ (s : PState) (t : String), t ∉ order →
    pyGet (ping_targets win env s order).target_dict t
      = pyGet s.target_dict t := by
  induction order with
  | nil => intro s t _; rfl
  | cons t0 rest ih =>
    intro s t hmem
    unfold ping_targets at ih ⊢
    rw [List.foldl_cons]
    have hne : t ≠ t0 := fun h => hmem (h ▸ List.mem_cons_self t0 rest)
    have hnr : t ∉ rest := fun h => hmem (List.mem_cons_of_mem _ h)
    rw [ih _ t hnr]
    exact capture_get_ne win env s t0 t hne

theorem run_get_ok (win : Bool) (env : String → ProcOutcome)
    (order : List String) : ∀ (s : PState) (t : String) (r : PingResult),
    order.Nodup → t ∈ order →
    ping_it win (env t).rc (env t).stdout (env t).stderr = .ok r →
    ∃ a, pyGet (ping_targets win env s order).target_dict t = some a ∧
      s.heap.length ≤ a ∧
      (ping_targets win env s order).heap[a]? = some r := by
  induction order with
  | nil => intro s t r _ ht _; simp at ht
  | cons t0 rest ih =>
    intro s t r hnd hmem hok
    have hnd' : rest.Nodup := (List.nodup_cons.mp hnd).2
    have ht0nr : t0 ∉ rest := (List.nodup_cons.mp hnd).1
    have hrun : ping_targets win env s (t0 :: rest)
        = ping_targets win env (capture_target win env s t0) rest := rfl
    rw [hrun]
    rcases List.mem_cons.mp hmem with heq | hmemr
    · subst heq
      have hstep : capture_target win env s t =
          { s with heap := s.heap ++ [r],
                   target_dict := pyDictSet s.target_dict t s.heap.length } := by
        unfold capture_target
        rw [hok]
      refine ⟨s.heap.length, ?g1, le_refl _, ?g2⟩
      · rw [run_get_not_mem win env rest _ t ht0nr, hstep]
        exact pyGet_set_self _ _ _
      · have hlt : s.heap.length < (capture_target win env s t).heap.length := by
          rw [hstep]
          simp
        rw [run_heap_get win env rest _ _ hlt, hstep]
        exact List.getElem?_concat_length _ _
    · have hne : t ≠ t0 := fun h => ht0nr (h ▸ hmemr)
      rcases ih (capture_target win env s t0) t r hnd' hmemr hok with
        ⟨a, ha, hbound, hheap⟩
      exact ⟨a, ha, le_trans (capture_heap_len_le win env s t0) hbound, hheap⟩

theorem run_get_err (win : Bool) (env : String → ProcOutcome)
    (order : List String) : ∀ (s : PState) (t : String) (e : String),
    order.Nodup → t ∈ order →
    ping_it win (env t).rc (env t).stdout (env t).stderr = .error e →
    pyGet (ping_targets win env s order).target_dict t
      = pyGet s.target_dict t := by
  induction order with
  | nil => intro s t e _ ht _; simp at ht
  | cons t0 rest ih =>
    intro s t e hnd hmem herr
    have hnd' : rest.Nodup := (List.nodup_cons.mp hnd).2
    have ht0nr : t0 ∉ rest := (List.nodup_cons.mp hnd).1
    have hrun : ping_targets win env s (t0 :: rest)
        = ping_targets win env (capture_target win env s t0) rest := rfl
    rw [hrun]
    rcases List.mem_cons.mp hmem with heq | hmemr
    · subst heq
      have hstep : capture_target win env s t = s := by
        unfold capture_target
        rw [herr]
      rw [run_get_not_mem win env rest _ t ht0nr, hstep]
    · have hne : t ≠ t0 := fun h => ht0nr (h ▸ hmemr)
      rw [ih (capture_target win env s t0) t e hnd' hmemr herr]
      exact capture_get_ne win env s t0 t hne

theorem run_addr_inj (win : Bool) (env : String → ProcOutcome)
    (order : List String) :
    ∀ (s : PState) (t₁ t₂ : String) (r₁ r₂ : PingResult) (a₁ a₂ : Nat),
    order.Nodup → t₁ ∈ order → t₂ ∈ order → t₁ ≠ t₂ →
    ping_it win (env t₁).rc (env t₁).stdout (env t₁).stderr = .ok r₁ →
    ping_it win (env t₂).rc (env t₂).stdout (env t₂).stderr = .ok r₂ →
    pyGet (ping_targets win env s order).target_dict t₁ = some a₁ →
    pyGet (ping_targets win env s order).target_dict t₂ = some a₂ →
    a₁ ≠ a₂ := by
  induction order with
  | nil => intro s t₁ t₂ r₁ r₂ a₁ a₂ _ ht _ _ _ _ _ _; simp at ht
  | cons t0 rest ih =>
    intro s t₁ t₂ r₁ r₂ a₁ a₂ hnd hm₁ hm₂ hne hok₁ hok₂ hget₁ hget₂
    have hnd' : rest.Nodup := (List.nodup_cons.mp hnd).2
    have ht0nr : t0 ∉ rest := (List.nodup_cons.mp hnd).1
    have hrun : ping_targets win env s (t0 :: rest)
        = ping_targets win env (capture_target win env s t0) rest := rfl
    rw [hrun] at hget₁ hget₂
    rcases List.mem_cons.mp hm₁ with he₁ | hr₁
    · subst he₁
      have hm₂r : t₂ ∈ rest := by
        rcases List.mem_cons.mp hm₂ with h | h
        · exact absurd h.symm hne
        · exact h
      have hstep : capture_target win env s t₁ =
          { s with heap := s.heap ++ [r₁],
                   target_dict := pyDictSet s.target_dict t₁ s.heap.length } := by
        unfold capture_target
        rw [hok₁]
      have ha₁ : a₁ = s.heap.length := by
        rw [run_get_not_mem win env rest _ t₁ ht0nr, hstep] at hget₁
        have := pyGet_set_self s.target_dict t₁ s.heap.length
        rw [this] at hget₁
        exact (Option.some.inj hget₁).symm
      rcases run_get_ok win env rest (capture_target win env s t₁) t₂ r₂
        hnd' hm₂r hok₂ with ⟨a, ha, hbound, _⟩
      have haa : a = a₂ := Option.some.inj (ha.symm.trans hget₂)
      have hlen : (capture_target win env s t₁).heap.length
          = s.heap.length + 1 := by
        rw [hstep]
        simp
      omega
    · rcases List.mem_cons.mp hm₂ with he₂ | hr₂
      · subst he₂
        have hstep : capture_target win env s t₂ =
            { s with heap := s.heap ++ [r₂],
                     target_dict := pyDictSet s.target_dict t₂ s.heap.length } := by
          unfold capture_target
          rw [hok₂]
        have ha₂ : a₂ = s.heap.length := by
          rw [run_get_not_mem win env rest _ t₂ ht0nr, hstep] at hget₂
          have := pyGet_set_self s.target_dict t₂ s.heap.length
          rw [this] at hget₂
          exact (Option.some.inj hget₂).symm
        rcases run_get_ok win env rest (capture_target win env s t₂) t₁ r₁
          hnd' hr₁ hok₁ with ⟨a, ha, hbound, _⟩
        have haa : a = a₁ := Option.some.inj (ha.symm.trans hget₁)
        have hlen : (capture_target win env s t₂).heap.length
            = s.heap.length + 1 := by
          rw [hstep]
          simp
        omega
      · exact ih (capture_target win env s t0) t₁ t₂ r₁ r₂ a₁ a₂
          hnd' hr₁ hr₂ hne hok₁ hok₂ hget₁ hget₂

/-! ## Lemmas about `processLine` and the `_ping_it` fold -/

theorem processLine_no_match (win : Bool) (r : PingResult) (line : String)
    (h : lineMatches win line = false) : processLine win r line = .ok r := by
  unfold lineMatches at h
  unfold processLine
  cases win
  · simp only [Bool.false_eq_true, if_false] at h ⊢
    rcases Bool.or_eq_false_iff.mp h with ⟨h1, h2⟩
    rw [if_neg (by simp [h1]), if_neg (by simp [h2])]
  · simp only [if_true] at h ⊢
    rcases Bool.or_eq_false_iff.mp h with ⟨h1, h2⟩
    rw [if_neg (by simp [h1]), if_neg (by simp [h2])]

theorem foldlM_ok_of_no_match (win : Bool) (lines : List String) :
    ∀ r : PingResult, lines.all (fun l => !(lineMatches win l)) = true →
      List.foldlM (processLine win) r lines = .ok r := by
  induction lines with
  | nil => intro r _; rfl
  | cons l ls ih =>
    intro r hall
    rw [List.all_cons, Bool.and_eq_true] at hall
    have h1 : lineMatches win l = false := by
      have hh := hall.1
      simpa using hh
    rw [List.foldlM_cons, processLine_no_match win r l h1]
    exact ih r hall.2

theorem foldlM_preserve {P : PingResult → Prop} {chk : String → Bool}
    (win : Bool)
    (hstep : ∀ r r' line, chk line = true → P r →
      processLine win r line = .ok r' → P r') (lines : List String) :
    ∀ r0 rf : PingResult, lines.all chk = true → P r0 →
      List.foldlM (processLine win) r0 lines = .ok rf → P rf := by
  induction lines with
  | nil =>
    intro r0 rf _ hP h
    have heq : r0 = rf := Except.ok.inj (show Except.ok r0 = Except.ok rf from h)
    exact heq ▸ hP
  | cons l ls ih =>
    intro r0 rf hall hP h
    rw [List.all_cons, Bool.and_eq_true] at hall
    rw [List.foldlM_cons] at h
    cases hstep0 : processLine win r0 l with
    | ok r1 =>
      rw [hstep0] at h
      exact ih r1 rf hall.2 (hstep r0 r1 l hall.1 hP hstep0) h
    | error e =>
      rw [hstep0] at h
      exact Except.noConfusion (show Except.error e = Except.ok rf from h)

theorem processLine_rtt_ordered (win : Bool) (r r' : PingResult)
    (line : String) (hchk : rttOrderedLine win line = true) (hP : RttOrd r)
    (h : processLine win r line = .ok r') : RttOrd r' := by
  unfold rttOrderedLine at hchk
  unfold processLine at h
  cases win
  · simp only [Bool.false_eq_true, if_false] at hchk h
    by_cases h1 : pyIn "rtt min" (pyLstrip line) = true
    · rw [if_pos h1] at hchk h
      cases hp : posixRttParse (pyLstrip line) with
      | ok qs =>
        rcases qs with ⟨q0, q1, q2⟩
        rw [hp] at h
        have hr' : r' = { r with rtt := [pyTruncDec q0, pyTruncDec q2, pyTruncDec q1] } :=
          (Except.ok.inj h).symm
        rw [hp] at hchk
        simp only [Bool.and_eq_true, decide_eq_true_eq] at hchk
        rcases hchk with ⟨⟨hq0, hle01⟩, hle12⟩
        have hq1 : 0 ≤ q1.mant := Dec.mant_nonneg_of_le hq0 hle01
        rw [hr']
        refine ⟨?a, ?b, ?c⟩
        · simpa [RttOrd, List.getD] using pyTruncDec_nonneg hq0
        · simpa [RttOrd, List.getD] using pyTruncDec_mono hq0 hle01
        · simpa [RttOrd, List.getD] using pyTruncDec_mono hq1 hle12
      | error e =>
        rw [hp] at h
        exact Except.noConfusion (show Except.error e = Except.ok r' from h)
    · rw [if_neg h1] at h
      by_cases h2 : pyIn "packets transmitted," (pyLstrip line) = true
      · rw [if_pos h2] at h
        cases hp : posixPacketsParse (pyLstrip line) with
        | ok ps =>
          rcases ps with ⟨a, b, c⟩
          rw [hp] at h
          have hr' : r' = { r with packets := [a, b, c] } := (Except.ok.inj h).symm
          rw [hr']
          exact hP
        | error e =>
          rw [hp] at h
          exact Except.noConfusion (show Except.error e = Except.ok r' from h)
      · rw [if_neg h2] at h
        have hr' : r' = r := (Except.ok.inj h).symm
        exact hr' ▸ hP
  · simp only [if_true] at hchk h
    by_cases h1 : pyStartsWith (pyLstrip line) "Minimum" = true
    · rw [if_pos h1] at hchk h
      cases hp : winRttParse (pyLstrip line) with
      | ok ms =>
        rcases ms with ⟨m, mx, av⟩
        rw [hp] at h
        have hr' : r' = { r with rtt := [m, mx, av] } := (Except.ok.inj h).symm
        rw [hp] at hchk
        simp only [decide_eq_true_eq] at hchk
        rcases hchk with ⟨hm, hmav, havmx⟩
        rw [hr']
        refine ⟨?d, ?e, ?f⟩
        · simpa [RttOrd, List.getD] using hm
        · simpa [RttOrd, List.getD] using hmav
        · simpa [RttOrd, List.getD] using havmx
      | error e =>
        rw [hp] at h
        exact Except.noConfusion (show Except.error e = Except.ok r' from h)
    · rw [if_neg h1] at h
      by_cases h2 : pyStartsWith (pyLstrip line) "Packets:" = true
      · rw [if_pos h2] at h
        cases hp : winPacketsParse (pyLstrip line) with
        | ok ps =>
          rcases ps with ⟨a, b, c⟩
          rw [hp] at h
          have hr' : r' = { r with packets := [a, b, c] } := (Except.ok.inj h).symm
          rw [hr']
          exact hP
        | error e =>
          rw [hp] at h
          exact Except.noConfusion (show Except.error e = Except.ok r' from h)
      · rw [if_neg h2] at h
        have hr' : r' = r := (Except.ok.inj h).symm
        exact hr' ▸ hP

theorem processLine_packets_sum (win : Bool) (r r' : PingResult)
    (line : String) (hchk : packetsSumLine win line = true) (hP : PacketsSum r)
    (h : processLine win r line = .ok r') : PacketsSum r' := by
  unfold packetsSumLine at hchk
  unfold processLine at h
  cases win
  · simp only [Bool.false_eq_true, if_false] at hchk h
    by_cases h1 : pyIn "rtt min" (pyLstrip line) = true
    · rw [if_pos h1] at h
      cases hp : posixRttParse (pyLstrip line) with
      | ok qs =>
        rcases qs with ⟨q0, q1, q2⟩
        rw [hp] at h
        have hr' : r' = { r with rtt := [pyTruncDec q0, pyTruncDec q2, pyTruncDec q1] } :=
          (Except.ok.inj h).symm
        rw [hr']
        exact hP
      | error e =>
        rw [hp] at h
        exact Except.noConfusion (show Except.error e = Except.ok r' from h)
    · rw [if_neg h1] at h
      rw [if_neg h1] at hchk
      by_cases h2 : pyIn "packets transmitted," (pyLstrip line) = true
      · rw [if_pos h2] at h
        rw [if_pos h2] at hchk
        cases hp : posixPacketsParse (pyLstrip line) with
        | ok ps =>
          rcases ps with ⟨a, b, c⟩
          rw [hp] at h
          rw [hp] at hchk
          have hr' : r' = { r with packets := [a, b, c] } := (Except.ok.inj h).symm
          have hsum : a = b + c := by
            have hb := hchk
            simpa using hb
          rw [hr']
          simpa [PacketsSum, List.getD] using hsum
        | error e =>
          rw [hp] at h
          exact Except.noConfusion (show Except.error e = Except.ok r' from h)
      · rw [if_neg h2] at h
        have hr' : r' = r := (Except.ok.inj h).symm
        exact hr' ▸ hP
  · simp only [if_true] at hchk h
    by_cases h1 : pyStartsWith (pyLstrip line) "Minimum" = true
    · rw [if_pos h1] at h
      cases hp : winRttParse (pyLstrip line) with
      | ok ms =>
        rcases ms with ⟨m, mx, av⟩
        rw [hp] at h
        have hr' : r' = { r with rtt := [m, mx, av] } := (Except.ok.inj h).symm
        rw [hr']
        exact hP
      | error e =>
        rw [hp] at h
        exact Except.noConfusion (show Except.error e = Except.ok r' from h)
    · rw [if_neg h1] at h
      rw [if_neg h1] at hchk
      by_cases h2 : pyStartsWith (pyLstrip line) "Packets:" = true
      · rw [if_pos h2] at h
        rw [if_pos h2] at hchk
        cases hp : winPacketsParse (pyLstrip line) with
        | ok ps =>
          rcases ps with ⟨a, b, c⟩
          rw [hp] at h
          rw [hp] at hchk
          have hr' : r' = { r with packets := [a, b, c] } := (Except.ok.inj h).symm
          have hsum : a = b + c := by
            have hb := hchk
            simpa using hb
          rw [hr']
          simpa [PacketsSum, List.getD] using hsum
        | error e =>
          rw [hp] at h
          exact Except.noConfusion (show Except.error e = Except.ok r' from h)
      · rw [if_neg h2] at h
        have hr' : r' = r := (Except.ok.inj h).symm
        exact hr' ▸ hP

/-! ## Helper lemmas about the failure branch -/

theorem ping_it_rc_ne (win : Bool) (rc : Int) (out err : String) (h : rc ≠ 0) :
    ping_it win rc out err =
      .ok { PingResult.init with error := failure_error rc err } := by
  unfold ping_it
  rw [if_pos h]

theorem string_ne_empty_of_length_pos (s : String) (h : 0 < s.length) :
    s ≠ "" := by
  intro he
  rw [he] at h
  exact absurd h (by decide)

theorem paren_code_ne_empty (rc : Int) : ("(" ++ toString rc ++ ")") ≠ "" := by
  apply string_ne_empty_of_length_pos
  rw [String.length_append, String.length_append]
  have h1 : "(".length = 1 := rfl
  omega

theorem paren_code_offline_ne_empty (rc : Int) :
    ("(" ++ toString rc ++ ")" ++ " offline?") ≠ "" := by
  apply string_ne_empty_of_length_pos
  rw [String.length_append, String.length_append, String.length_append]
  have h1 : "(".length = 1 := rfl
  omega

theorem failure_error_ne_empty (rc : Int) (err : String)
    (herr : err = "" ∨ pyStrip err ≠ "") : failure_error rc err ≠ "" := by
  unfold failure_error
  by_cases hlen : pyLen err > 0
  · rw [if_pos hlen]
    rcases herr with he | he
    · subst he
      exact absurd hlen (by decide)
    · exact he
  · rw [if_neg hlen]
    by_cases h1 : rc = 1
    · rw [if_pos h1]
      exact paren_code_offline_ne_empty rc
    · rw [if_neg h1]
      exact paren_code_ne_empty rc

/-! ## Claim C8 -/

/-- C8: for every integer assigned to the requests-per-host setter,
a value outside 1..100 makes the stored `num_requests` fall back to
the default 4 (not clamped), while every value inside 1..100 is stored
unchanged. -/
theorem c8_num_requests_setter (s : PState) (count : Int) :
    ((count < 1 ∨ 100 < count) →
      (set_num_requests s count).num_requests = 4) ∧
    (1 ≤ count → count ≤ 100 →
      (set_num_requests s count).num_requests = count) := by
  unfold set_num_requests
  split_ifs with hc
  · simp only [Bool.or_eq_true, decide_eq_true_eq] at hc
    refine ⟨fun _ => rfl, fun h1 h2 => ?bad⟩
    rcases hc with hc | hc <;> omega
  · simp only [Bool.or_eq_true, decide_eq_true_eq, not_or, not_lt] at hc
    refine ⟨fun h => ?bad2, fun _ _ => rfl⟩
    rcases h with h | h <;> rcases hc with ⟨hc1, hc2⟩ <;> omega

/-- C8 witness: the boundary values 0 and 100 behave as claimed on a
concrete `Pinger` state. -/
theorem c8_num_requests_setter_witness :
    (set_num_requests (pinger_init false "src" (.str "host")) 0).num_requests = 4 ∧
    (set_num_requests (pinger_init false "src" (.str "host")) 100).num_requests = 100 :=
  ⟨(c8_num_requests_setter (pinger_init false "src" (.str "host")) 0).1
      (Or.inl (by decide)),
   (c8_num_requests_setter (pinger_init false "src" (.str "host")) 100).2
      (by decide) (by decide)⟩

/-! ## Claim C9 -/

/-- C9: for every integer assigned to the per-request timeout setter,
a negative value makes the stored `request_timeout` fall back to the
platform default (2 on POSIX, 2000 on Windows), while 0 and every
positive value pass through unchanged. -/
theorem c9_request_timeout_setter (win : Bool) (s : PState) (value : Int) :
    (value < 0 → (set_request_timeout win s value).request_timeout =
      (if win then DEFAULTS.REQUEST_TIMEOUT_WINDOWS
       else DEFAULTS.REQUEST_TIMEOUT_LINUX)) ∧
    (0 ≤ value → (set_request_timeout win s value).request_timeout = value) := by
  unfold set_request_timeout
  by_cases hv : value < 0
  · rw [if_pos hv]
    exact ⟨fun _ => rfl, fun h0 => absurd hv (by omega)⟩
  · rw [if_neg hv]
    exact ⟨fun h => absurd h hv, fun _ => rfl⟩

/-- C9 witness: a negative timeout falls back to the platform default
on both platforms, and 0 and a positive value pass through. -/
theorem c9_request_timeout_setter_witness :
    (set_request_timeout false (pinger_init false "src" (.str "host")) (-1)).request_timeout = 2 ∧
    (set_request_timeout true (pinger_init true "src" (.str "host")) (-5)).request_timeout = 2000 ∧
    (set_request_timeout false (pinger_init false "src" (.str "host")) 0).request_timeout = 0 ∧
    (set_request_timeout true (pinger_init true "src" (.str "host")) 7).request_timeout = 7 :=
  ⟨(c9_request_timeout_setter false (pinger_init false "src" (.str "host")) (-1)).1 (by decide),
   (c9_request_timeout_setter true (pinger_init true "src" (.str "host")) (-5)).1 (by decide),
   (c9_request_timeout_setter false (pinger_init false "src" (.str "host")) 0).2 (by decide),
   (c9_request_timeout_setter true (pinger_init true "src" (.str "host")) 7).2 (by decide)⟩

/-! ## Claim C10 -/

/-- C10: constructing a `Pinger` from a single target string produces
exactly the same initial state (target map, heap, defaults, metadata)
as constructing it from the one-element list of that string: the
constructor wraps a lone string into a list and proceeds identically. -/
theorem c10_init_str_list_equiv (win : Bool) (host s : String) :
    pinger_init win host (.str s) = pinger_init win host (.list [s]) := rfl

/-! ## Claim C7 -/

/-- C7: the ordered (target, result) pairs handed to the text and CSV
renderers (`pinger.results` iterated in dict order) follow the
original input order of the target list — the keys of the final dict
are the first occurrences of the input targets in input order — for
every completion order of the thread pool. -/
theorem c7_output_order (win : Bool) (env : String → ProcOutcome)
    (host : String) (targets order : List String)
    (hperm : order.Perm
      (pyKeys (pinger_init win host (.list targets)).target_dict)) :
    ((result_items
        (ping_targets win env (pinger_init win host (.list targets)) order)).map
          (fun p => p.1) = pyDedup targets)
    ∧ (pyDedup targets).Sublist targets := by
  have hkeys0 : pyKeys (pinger_init win host (.list targets)).target_dict
      = pyDedup targets := by
    show pyKeys (pyFromkeys targets 0) = pyDedup targets
    exact pyKeys_fromkeys_eq_dedup targets 0
  constructor
  · have hmem : ∀ t ∈ order,
        t ∈ pyKeys (pinger_init win host (.list targets)).target_dict :=
      fun t ht => hperm.mem_iff.mp ht
    have hrun := run_keys win env order (pinger_init win host (.list targets)) hmem
    have hfst : ∀ X : PState, (result_items X).map (fun p => p.1)
        = pyKeys X.target_dict := by
      intro X
      simp [result_items, pyKeys, List.map_map, Function.comp]
    rw [hfst, hrun, hkeys0]
  · exact pyDedup_sublist targets

/-- C7 witness: a target list with a duplicate, probed with a
completion order different from the input order, still lists results
in first-occurrence input order. -/
theorem c7_output_order_witness :
    ((result_items
        (ping_targets false env_all_quiet
          (pinger_init false "src" (.list ["b", "a", "a"])) ["a", "b"])).map
          (fun p => p.1) = pyDedup ["b", "a", "a"])
    ∧ (pyDedup ["b", "a", "a"]).Sublist ["b", "a", "a"] :=
  c7_output_order false env_all_quiet "src" ["b", "a", "a"] ["a", "b"]
    (by decide)

/-! ## Claim C3 -/

/-- C3 (amended): for every input list of pairwise-distinct targets,
the run completes with a result map of exactly one entry per target —
the key list equals the input list, so there are no duplicate or
missing keys — regardless of the completion order of the workers.
When the input list repeats a target, the dict collapses the
duplicates instead (see the counterexample). -/
theorem c3_result_map_complete_amended (win : Bool)
    (env : String → ProcOutcome) (host : String)
    (targets order : List String) (hnd : targets.Nodup)
    (hperm : order.Perm targets) :
    pyKeys (ping_targets win env (pinger_init win host (.list targets))
        order).target_dict = targets
    ∧ (ping_targets win env (pinger_init win host (.list targets))
        order).target_dict.length = targets.length := by
  have hkeys0 : pyKeys (pinger_init win host (.list targets)).target_dict
      = targets := by
    show pyKeys (pyFromkeys targets 0) = targets
    exact pyKeys_fromkeys_nodup targets 0 hnd
  have hmem : ∀ t ∈ order,
      t ∈ pyKeys (pinger_init win host (.list targets)).target_dict := by
    intro t ht
    rw [hkeys0]
    exact hperm.mem_iff.mp ht
  have hrun := run_keys win env order (pinger_init win host (.list targets)) hmem
  have h1 : pyKeys (ping_targets win env (pinger_init win host (.list targets))
      order).target_dict = targets := by rw [hrun, hkeys0]
  refine ⟨h1, ?len⟩
  have := congrArg List.length h1
  simpa [pyKeys] using this

/-- C3 counterexample: a length-51 input list containing one repeated
target runs with worker bound `min(50, 50) = 50 < 51` and completes
with only 50 map entries, not 51. -/
theorem c3_duplicate_targets_counterexample :
    targets_dup.length = 51
    ∧ num_workers (pinger_init false "src" (.list targets_dup)) = 50
    ∧ num_workers (pinger_init false "src" (.list targets_dup))
        < targets_dup.length
    ∧ (ping_targets false env_all_fail
        (pinger_init false "src" (.list targets_dup))
        (pyDedup targets_dup)).target_dict.length = 50
    ∧ (ping_targets false env_all_fail
        (pinger_init false "src" (.list targets_dup))
        (pyDedup targets_dup)).target_dict.length ≠ targets_dup.length := by
  refine ⟨by decide, by decide, by decide, by decide, by decide⟩

/-- C3 witness: three distinct targets completing in a scrambled order
still yield exactly three entries keyed by the input list. -/
theorem c3_result_map_complete_amended_witness :
    pyKeys (ping_targets false env_all_fail
        (pinger_init false "src" (.list ["a", "b", "c"]))
        ["b", "c", "a"]).target_dict = ["a", "b", "c"]
    ∧ (ping_targets false env_all_fail
        (pinger_init false "src" (.list ["a", "b", "c"]))
        ["b", "c", "a"]).target_dict.length = ["a", "b", "c"].length :=
  c3_result_map_complete_amended false env_all_fail "src" ["a", "b", "c"]
    ["b", "c", "a"] (by decide) (by decide)

/-! ## Claim C1 -/

/-- C1 (amended): after every probe that completes, the final result
satisfies `packetsSent = packetsReceived + packetsLost` provided every
packet summary line the parser matched reports a first field equal to
the sum of the other two (true of Windows `Sent/Received/Lost` lines;
on POSIX the third parsed field is the loss percentage, so it holds
exactly when that percentage equals the lost count, e.g. at zero or
total loss).  When the probe fails at the transport/process level
(`rc ≠ 0`) all three counters remain 0 — so the sum invariant holds
there trivially, but `packetsSent` is 0, not the configured request
count. -/
theorem c1_packets_sum_amended (win : Bool) (rc : Int) (out err : String)
    (r : PingResult) (hsum : packetsSumOut win out = true)
    (hok : ping_it win rc out err = .ok r) :
    r.packets.getD 0 0 = r.packets.getD 1 0 + r.packets.getD 2 0
    ∧ (rc ≠ 0 → r.packets = [0, 0, 0]) := by
  by_cases hrc : rc ≠ 0
  · rw [ping_it_rc_ne win rc out err hrc] at hok
    have hr : r = { PingResult.init with error := failure_error rc err } :=
      (Except.ok.inj hok).symm
    rw [hr]
    exact ⟨by simp [PingResult.init, List.getD], fun _ => rfl⟩
  · unfold ping_it at hok
    rw [if_neg hrc] at hok
    have hP : PacketsSum r := by
      refine foldlM_preserve win (processLine_packets_sum win)
        (pySplit out '\n') PingResult.init r ?chk ?init hok
      · unfold packetsSumOut at hsum
        exact hsum
      · simp [PacketsSum, PingResult.init, List.getD]
    exact ⟨hP, fun h => absurd h hrc⟩

/-- C1 counterexample: a probe failing at the process level (return
code 1, the configured request count at its default 4) completes with
`packetsSent = 0`, not `num_requests`; so the claim that `packetsSent`
always equals the configured request count is false. -/
theorem c1_failure_packets_counterexample :
    ping_it false 1 "" "ping: unknown host nohost" =
      .ok { packets := [0, 0, 0], rtt := [0, 0, 0],
            error := "ping: unknown host nohost" }
    ∧ (pinger_init false "src" (.str "nohost")).num_requests = 4
    ∧ (0 : Int) ≠ (pinger_init false "src" (.str "nohost")).num_requests := by
  refine ⟨rfl, rfl, by decide⟩

/-- C1 witness: the amended sum invariant at a concrete failed probe. -/
theorem c1_packets_sum_amended_witness :
    ((PingResult.mk [0, 0, 0] [0, 0, 0] "boom").packets.getD 0 0
      = (PingResult.mk [0, 0, 0] [0, 0, 0] "boom").packets.getD 1 0
        + (PingResult.mk [0, 0, 0] [0, 0, 0] "boom").packets.getD 2 0)
    ∧ ((1 : Int) ≠ 0 →
        (PingResult.mk [0, 0, 0] [0, 0, 0] "boom").packets = [0, 0, 0]) :=
  c1_packets_sum_amended false 1 "" "boom"
    (PingResult.mk [0, 0, 0] [0, 0, 0] "boom") rfl rfl

/-! ## Claim C4 -/

/-- C4 (amended): for every probe that fails at the process level
(`rc ≠ 0`) whose stderr is either empty or strips to a non-empty
string, the final result has `packetsReceived = 0` and a non-empty
`error`.  The guard is necessary: a non-empty stderr consisting only
of whitespace strips to the empty string, which is stored verbatim
(see the counterexample). -/
theorem c4_error_nonempty_amended (win : Bool) (rc : Int) (out err : String)
    (r : PingResult) (hrc : rc ≠ 0) (herr : err = "" ∨ pyStrip err ≠ "")
    (hok : ping_it win rc out err = .ok r) :
    r.packets.getD 1 0 = 0 ∧ r.error ≠ "" := by
  rw [ping_it_rc_ne win rc out err hrc] at hok
  have hr : r = { PingResult.init with error := failure_error rc err } :=
    (Except.ok.inj hok).symm
  rw [hr]
  exact ⟨by simp [PingResult.init, List.getD], failure_error_ne_empty rc err herr⟩

/-- C4 counterexample: with return code 1 and a whitespace-only stderr
the probe completes with `packetsReceived = 0` and an empty error
string, because `p_stderr.strip()` is stored even when it is empty and
the `is None` fallback never fires. -/
theorem c4_empty_error_counterexample :
    ping_it false 1 "" "\n" =
      .ok { packets := [0, 0, 0], rtt := [0, 0, 0], error := "" }
    ∧ (PingResult.mk [0, 0, 0] [0, 0, 0] "").packets.getD 1 0 = 0
    ∧ (PingResult.mk [0, 0, 0] [0, 0, 0] "").error = "" := by
  refine ⟨rfl, by decide, rfl⟩

/-- C4 witness: the amended claim at a concrete failed probe with a
meaningful stderr. -/
theorem c4_error_nonempty_amended_witness :
    (PingResult.mk [0, 0, 0] [0, 0, 0] "ping: bad").packets.getD 1 0 = 0
    ∧ (PingResult.mk [0, 0, 0] [0, 0, 0] "ping: bad").error ≠ "" :=
  c4_error_nonempty_amended false 1 "" "ping: bad"
    (PingResult.mk [0, 0, 0] [0, 0, 0] "ping: bad") (by decide)
    (Or.inr (by decide)) rfl

/-! ## Claim C6 -/

/-- C6: for every probe that completes with `packetsReceived > 0`, the
stored RTT statistics satisfy `0 ≤ rttMin ≤ rttAvg ≤ rttMax`, given
that every RTT summary line of the platform `ping` output reports
(non-negative) times with `min ≤ avg ≤ max`.  The property in fact
holds for every completed probe: when no RTT line is parsed the
statistics remain `[0, 0, 0]`. -/
theorem c6_rtt_ordered (win : Bool) (rc : Int) (out err : String)
    (r : PingResult) (hord : rttOrderedOut win out = true)
    (hok : ping_it win rc out err = .ok r)
    (_hrecv : 0 < r.packets.getD 1 0) :
    0 ≤ r.rtt.getD 0 0 ∧ r.rtt.getD 0 0 ≤ r.rtt.getD 2 0
      ∧ r.rtt.getD 2 0 ≤ r.rtt.getD 1 0 := by
  by_cases hrc : rc ≠ 0
  · rw [ping_it_rc_ne win rc out err hrc] at hok
    have hr : r = { PingResult.init with error := failure_error rc err } :=
      (Except.ok.inj hok).symm
    rw [hr]
    simp [PingResult.init, List.getD]
  · unfold ping_it at hok
    rw [if_neg hrc] at hok
    have hP : RttOrd r := by
      refine foldlM_preserve win (processLine_rtt_ordered win)
        (pySplit out '\n') PingResult.init r ?chk ?init hok
      · unfold rttOrderedOut at hord
        exact hord
      · simp [RttOrd, PingResult.init, List.getD]
    exact hP

set_option maxRecDepth 8000 in
/-- C6 witness: a realistic POSIX transcript with four replies yields
`rtt = [14, 15, 15]` (min, max, avg) satisfying the ordering. -/
theorem c6_rtt_ordered_witness :
    0 ≤ (PingResult.mk [4, 4, 0] [14, 15, 15] "").rtt.getD 0 0
    ∧ (PingResult.mk [4, 4, 0] [14, 15, 15] "").rtt.getD 0 0
        ≤ (PingResult.mk [4, 4, 0] [14, 15, 15] "").rtt.getD 2 0
    ∧ (PingResult.mk [4, 4, 0] [14, 15, 15] "").rtt.getD 2 0
        ≤ (PingResult.mk [4, 4, 0] [14, 15, 15] "").rtt.getD 1 0 :=
  c6_rtt_ordered false 0 sample_posix_stdout ""
    (PingResult.mk [4, 4, 0] [14, 15, 15] "") rfl rfl (by decide)

/-! ## Claim C5 -/

/-- C5 (amended): the per-target probe returns a `PingResult` without
raising whenever the `ping` process exits non-zero, and whenever it
exits zero with no stdout line matching a summary pattern; a matched
but malformed summary line instead raises `IndexError`/`ValueError`
inside that worker (see the counterexample).  Even then the run is not
aborted and other workers are unaffected: a target whose probe
returns normally always ends up with its own result object in the
shared map, whatever happens to the other targets. -/
theorem c5_no_raise_amended :
    (∀ (win : Bool) (rc : Int) (out err : String),
      (rc ≠ 0 ∨ noLineMatches win out = true) →
      exceptOk (ping_it win rc out err) = true)
    ∧ (∀ (win : Bool) (env : String → ProcOutcome) (host : String)
        (targets order : List String) (t : String) (r : PingResult),
      targets.Nodup → order.Perm targets → t ∈ targets →
      ping_it win (env t).rc (env t).stdout (env t).stderr = .ok r →
      ∃ a, pyGet (ping_targets win env (pinger_init win host (.list targets))
          order).target_dict t = some a
        ∧ (ping_targets win env (pinger_init win host (.list targets))
            order).heap[a]? = some r) := by
  constructor
  · intro win rc out err h
    rcases h with h | h
    · rw [ping_it_rc_ne win rc out err h]
      rfl
    · unfold ping_it
      by_cases hrc : rc ≠ 0
      · rw [if_pos hrc]
        rfl
      · rw [if_neg hrc]
        unfold noLineMatches at h
        rw [foldlM_ok_of_no_match win (pySplit out '\n') PingResult.init h]
        rfl
  · intro win env host targets order t r hnd hperm hmem hok
    have hndo : order.Nodup := hperm.nodup_iff.mpr hnd
    have hmemo : t ∈ order := hperm.mem_iff.mpr hmem
    rcases run_get_ok win env order (pinger_init win host (.list targets))
      t r hndo hmemo hok with ⟨a, ha, _, hheap⟩
    exact ⟨a, ha, hheap⟩

/-- C5 counterexample: on return code 0 with the malformed matched
line `rtt min`, `_ping_it` raises `IndexError` instead of returning a
`PingResult`, refuting the claim that the probe never raises for any
transport/process outcome. -/
theorem c5_malformed_line_counterexample :
    ping_it false 0 "rtt min" "" = .error "IndexError: list index out of range" := rfl

/-- C5 witness: a failed process returns normally, and a target whose
probe returns normally keeps its own result in the map. -/
theorem c5_no_raise_amended_witness :
    exceptOk (ping_it false 2 "" "") = true
    ∧ ∃ a, pyGet (ping_targets false env_all_quiet
        (pinger_init false "src" (.list ["a"])) ["a"]).target_dict "a" = some a
      ∧ (ping_targets false env_all_quiet
          (pinger_init false "src" (.list ["a"])) ["a"]).heap[a]? =
          some PingResult.init :=
  ⟨c5_no_raise_amended.1 false 2 "" "" (Or.inl (by decide)),
   c5_no_raise_amended.2 false env_all_quiet "src" ["a"] ["a"] "a"
     PingResult.init (by decide) (List.Perm.refl _) (by decide) rfl⟩

/-! ## Claim C2 -/

/-- C2 (amended): at run start the result map does NOT give each
target its own result object — `dict.fromkeys(target, PingResult())`
makes every entry alias one shared zero-initialized instance (see the
counterexample).  What does hold: workers never mutate that shared
instance, they replace their own entry with the freshly allocated
result of their probe, so after the run any two distinct completed
targets hold distinct result objects, each equal to its own probe's
result and not mutated afterwards. -/
theorem c2_fresh_results_amended (win : Bool) (env : String → ProcOutcome)
    (host : String) (targets order : List String) (t₁ t₂ : String)
    (r₁ r₂ : PingResult) (a₁ a₂ : Nat) (hnd : targets.Nodup)
    (hperm : order.Perm targets) (hm₁ : t₁ ∈ targets) (hm₂ : t₂ ∈ targets)
    (hne : t₁ ≠ t₂)
    (hok₁ : ping_it win (env t₁).rc (env t₁).stdout (env t₁).stderr = .ok r₁)
    (hok₂ : ping_it win (env t₂).rc (env t₂).stdout (env t₂).stderr = .ok r₂)
    (hget₁ : pyGet (ping_targets win env (pinger_init win host (.list targets))
        order).target_dict t₁ = some a₁)
    (hget₂ : pyGet (ping_targets win env (pinger_init win host (.list targets))
        order).target_dict t₂ = some a₂) :
    a₁ ≠ a₂
    ∧ (ping_targets win env (pinger_init win host (.list targets))
        order).heap[a₁]? = some r₁
    ∧ (ping_targets win env (pinger_init win host (.list targets))
        order).heap[a₂]? = some r₂ := by
  have hndo : order.Nodup := hperm.nodup_iff.mpr hnd
  have hm₁o : t₁ ∈ order := hperm.mem_iff.mpr hm₁
  have hm₂o : t₂ ∈ order := hperm.mem_iff.mpr hm₂
  refine ⟨run_addr_inj win env order (pinger_init win host (.list targets))
    t₁ t₂ r₁ r₂ a₁ a₂ hndo hm₁o hm₂o hne hok₁ hok₂ hget₁ hget₂, ?h1, ?h2⟩
  · rcases run_get_ok win env order (pinger_init win host (.list targets))
      t₁ r₁ hndo hm₁o hok₁ with ⟨a, ha, _, hheap⟩
    have haa : a = a₁ := Option.some.inj (ha.symm.trans hget₁)
    exact haa ▸ hheap
  · rcases run_get_ok win env order (pinger_init win host (.list targets))
      t₂ r₂ hndo hm₂o hok₂ with ⟨a, ha, _, hheap⟩
    have haa : a = a₂ := Option.some.inj (ha.symm.trans hget₂)
    exact haa ▸ hheap

/-- C2 counterexample: immediately after construction with two
targets, both dict entries hold address 0 of a one-object heap — a
single mutable `PingResult` instance shared across map entries,
refuting the claim that each target starts with its own
independently owned result value. -/
theorem c2_shared_result_counterexample :
    pyGet (pinger_init false "src" (.list ["a", "b"])).target_dict "a" = some 0
    ∧ pyGet (pinger_init false "src" (.list ["a", "b"])).target_dict "b" = some 0
    ∧ (pinger_init false "src" (.list ["a", "b"])).heap.length = 1 := by
  refine ⟨rfl, rfl, rfl⟩

/-- C2 witness: two targets completing in input order end at the
distinct fresh addresses 1 and 2, each holding its own probe result. -/
theorem c2_fresh_results_amended_witness :
    (1 : Nat) ≠ 2
    ∧ (ping_targets false env_all_quiet
        (pinger_init false "src" (.list ["a", "b"])) ["a", "b"]).heap[1]? =
        some PingResult.init
    ∧ (ping_targets false env_all_quiet
        (pinger_init false "src" (.list ["a", "b"])) ["a", "b"]).heap[2]? =
        some PingResult.init :=
  c2_fresh_results_amended false env_all_quiet "src" ["a", "b"] ["a", "b"]
    "a" "b" PingResult.init PingResult.init 1 2 (by decide) (List.Perm.refl _)
    (by decide) (by decide) (by decide) rfl rfl rfl rfl
